import Mathlib

/- Shallow embedding of src/models.js from boundary/html5-node-diagram.

   The diagram state is a heap of Node and Segment records addressed by
   natural-number ids (standing for JS object references).  Coordinates,
   dimensions and CSS pixel values are rationals, idealizing JS doubles.
   Purely presentational state (the jQuery element, the stage, CSS classes
   other than dragging, the drawn arrowhead pixels, titles, click handlers)
   is not modeled; every field that feeds the geometry or the node/segment
   object graph is. -/

/-- An x/y record, as used for translate, distance and click coordinates. -/
structure Vec where
  x : ℚ
  y : ℚ
  deriving DecidableEq

/-- Particle dimensions: width, height and the pre-computed center
(Particle constructor). -/
structure Dimensions where
  w : ℚ
  h : ℚ
  center : Vec
  deriving DecidableEq

/-- Dimension setup in the Particle constructor: center is (w/2, h/2). -/
def mkDimensions (w h : ℚ) : Dimensions :=
  ⟨w, h, ⟨w / 2, h / 2⟩⟩

/-- The state of one Node object.  segments is this.segments, a list of
segment ids.  clickCoords is undefined in JS until the first onDragStart
runs; it is initialized to (0,0) here and only read after a drag start has
set it.  dragging mirrors the dragging CSS class. -/
structure NodeData where
  dimensions : Dimensions
  translate : Vec
  segments : List ℕ
  clickCoords : Vec
  dragging : Bool
  deriving DecidableEq

/-- The state of one Segment object.  origin and destination are Node ids;
none models the null written by Segment.prototype.onRemove.  rotate stores
the pair fed to Math.atan2 for the rotate(...) transform string (the string
is a fixed-format rendering of atan2 of exactly this pair).  elWidth is the
width last written to this.el.css.  canvasWidth is canvas.raw.width, fixed
at construction as Math.ceil((h+10)/Math.sin(40*DEG2RAD)); its value is a
fixed float, taken here as a parameter of construction. -/
structure SegmentData where
  dimensions : Dimensions
  translate : Vec
  origin : Option ℕ
  destination : Option ℕ
  distance : Vec
  rotate : Vec
  elWidth : ℚ
  canvasWidth : ℚ
  deriving DecidableEq

/-- The whole diagram: the Node heap, the Segment heap, and the list of
window mousemove handlers (ids of nodes whose bound onDrag is attached). -/
structure World where
  nodes : ℕ → Option NodeData
  segs : ℕ → Option SegmentData
  moveListeners : List ℕ

/-- Overwrite (or create) the node stored at an id. -/
def World.setNode (w : World) (nid : ℕ) (n : NodeData) : World :=
  { w with nodes := fun m => if m = nid then some n else w.nodes m }

/-- Overwrite (or create) the segment stored at an id. -/
def World.setSeg (w : World) (sid : ℕ) (s : SegmentData) : World :=
  { w with segs := fun m => if m = sid then some s else w.segs m }

/-- Node.prototype.addSegment: push the segment onto this.segments. -/
def NodeData.addSegment (n : NodeData) (sid : ℕ) : NodeData :=
  { n with segments := n.segments ++ [sid] }

/-- The loop of Node.prototype.removeSegment: splice out the first entry
equal (reference equality, here id equality) to the argument and break;
the list is unchanged when no entry matches. -/
def removeFirst : List ℕ → ℕ → List ℕ
  | [], _ => []
  | x :: xs, s => if x = s then xs else x :: removeFirst xs s

/-- Node.prototype.removeSegment. -/
def NodeData.removeSegment (n : NodeData) (sid : ℕ) : NodeData :=
  { n with segments := removeFirst n.segments sid }

/-- Math.ceil(Math.sqrt q) for a rational q, computed exactly: the least
natural n with q ≤ n^2 (and 0 for q ≤ 0).  Since n^2 is an integer,
q ≤ n^2 iff ⌈q⌉ ≤ n^2, so the answer comes from Nat.sqrt of ⌈q⌉. -/
def ceilSqrt (q : ℚ) : ℕ :=
  let c := (⌈q⌉).toNat
  if Nat.sqrt c * Nat.sqrt c = c then Nat.sqrt c else Nat.sqrt c + 1

/-- Segment.prototype.calculateWidth: ceil of the Euclidean norm of the
stored distance vector, minus the origin center x and the canvas
(arrowhead) width, clamped below at 0. -/
def calculateWidth (originCenterX canvasWidth : ℚ) (distance : Vec) : ℚ :=
  let w : ℚ := (ceilSqrt (distance.x ^ 2 + distance.y ^ 2) : ℚ) -
    originCenterX - canvasWidth
  if w < 0 then 0 else w

/-- The body of Segment.prototype.calculateRotation, given the resolved
origin and destination nodes: set the anchor translate, the distance
vector, the atan2 arguments of the rotate transform, and the element width
(calculateWidth reads the distance just written). -/
def SegmentData.calculateRotationWith (s : SegmentData) (origin dest : NodeData) :
    SegmentData :=
  let t : Vec := ⟨origin.translate.x + origin.dimensions.center.x,
                  origin.translate.y + origin.dimensions.center.y -
                    s.dimensions.center.y⟩
  let d : Vec := ⟨(origin.translate.x - dest.translate.x) * (-1),
                  (origin.translate.y - dest.translate.y) * (-1)⟩
  { s with translate := t, distance := d, rotate := d,
           elWidth := calculateWidth origin.dimensions.center.x s.canvasWidth d }

/-- Segment.prototype.calculateRotation on the heap: dereference
this.origin and this.destination (failing, as the JS would with a
TypeError, when the segment is gone or an endpoint reference is null) and
store the recomputed fields. -/
def World.calculateRotation (w : World) (sid : ℕ) : Option World := do
  let s ← w.segs sid
  let oid ← s.origin
  let origin ← w.nodes oid
  let did ← s.destination
  let dest ← w.nodes did
  some (w.setSeg sid (s.calculateRotationWith origin dest))

/-- A segment id that calculateRotation can process: the segment exists and
both endpoint references resolve to nodes on the heap. -/
def World.segWF (w : World) (sid : ℕ) : Bool :=
  match w.segs sid with
  | none => false
  | some s =>
    match s.origin, s.destination with
    | some oid, some did => (w.nodes oid).isSome && (w.nodes did).isSome
    | _, _ => false

/-- The derived fields of segment sid agree with the calculateRotation
formulas at the current positions of its endpoints. -/
def World.geomOK (w : World) (sid : ℕ) : Prop :=
  ∀ s, w.segs sid = some s →
    ∃ oid o did d, s.origin = some oid ∧ w.nodes oid = some o ∧
      s.destination = some did ∧ w.nodes did = some d ∧
      s.translate = ⟨o.translate.x + o.dimensions.center.x,
                     o.translate.y + o.dimensions.center.y -
                       s.dimensions.center.y⟩ ∧
      s.distance = ⟨d.translate.x - o.translate.x,
                    d.translate.y - o.translate.y⟩ ∧
      s.rotate = s.distance ∧
      s.elWidth = calculateWidth o.dimensions.center.x s.canvasWidth s.distance

/-- Node.prototype.onDragStart: bind this node s onDrag as one more window
mousemove handler (jQuery .on adds a handler, it does not replace the
existing ones), add the dragging class, and record the click offset inside
the node (the offset is taken as an input, as e.offsetX/e.offsetY are). -/
def World.onDragStart (w : World) (nid : ℕ) (offX offY : ℚ) : Option World := do
  let n ← w.nodes nid
  let w1 := { w with moveListeners := w.moveListeners ++ [nid] }
  some (w1.setNode nid { n with dragging := true, clickCoords := ⟨offX, offY⟩ })

/-- The for loop of Node.prototype.onDrag: run calculateRotation over the
listed segments in order. -/
def World.recalcSegments (w : World) : List ℕ → Option World
  | [] => some w
  | sid :: rest => do
      let w1 ← w.calculateRotation sid
      World.recalcSegments w1 rest

/-- Node.prototype.onDrag for a mousemove at page coordinates (px, py):
move the node to (px - clickCoords.x, py - clickCoords.y), then recompute
every segment in its list, then setPosition (which only writes CSS). -/
def World.onDrag (w : World) (nid : ℕ) (px py : ℚ) : Option World := do
  let n ← w.nodes nid
  let n1 := { n with translate := ⟨px - n.clickCoords.x, py - n.clickCoords.y⟩ }
  let w1 := w.setNode nid n1
  w1.recalcSegments n1.segments

/-- Node.prototype.onDragEnd: drop the dragging class and unbind every
window mousemove handler (jQuery .off with no handler argument removes
them all). -/
def World.onDragEnd (w : World) (nid : ℕ) : Option World := do
  let n ← w.nodes nid
  let w1 := w.setNode nid { n with dragging := false }
  some { w1 with moveListeners := [] }

/-- A window mousemove event at (px, py): every bound handler runs, in
binding order. -/
def World.mouseMove (w : World) (px py : ℚ) : Option World :=
  w.moveListeners.foldlM (fun acc nid => World.onDrag acc nid px py) w

/-- The segment record as the Segment constructor initializes it: the
element width starts as the option width and the translate as (0,0),
since the demo passes no x/y; origin and destination hold the endpoint
references. -/
def mkSegmentData (dims : Dimensions) (oid did : ℕ) (cw : ℚ) : SegmentData :=
  { dimensions := dims, translate := ⟨0, 0⟩, origin := some oid,
    destination := some did, distance := ⟨0, 0⟩, rotate := ⟨0, 0⟩,
    elWidth := dims.w, canvasWidth := cw }

/-- The Segment constructor: store the new segment record, then run
origin.addSegment(this) and destination.addSegment(this), in that order.
canvasWidth receives the already-evaluated
Math.ceil((h+10)/Math.sin(40*DEG2RAD)). -/
def World.newSegment (w : World) (sid : ℕ) (dims : Dimensions) (oid did : ℕ)
    (canvasWidth : ℚ) : Option World := do
  let w1 := w.setSeg sid (mkSegmentData dims oid did canvasWidth)
  let o ← w1.nodes oid
  let w2 := w1.setNode oid (o.addSegment sid)
  let d ← w2.nodes did
  some (w2.setNode did (d.addSegment sid))

/-- Segment attach: Segment.prototype.onAttach draws the static arrowhead
(canvas pixels, not modeled) and then runs the first calculateRotation;
Particle.prototype.attach then mounts the element and calls setPosition
(CSS only).  The heap effect is exactly calculateRotation. -/
def World.segmentAttach (w : World) (sid : ℕ) : Option World :=
  w.calculateRotation sid

/-- Segment removal (Particle.prototype.remove running
Segment.prototype.onRemove): deregister from the origin, then from the
destination, then null both endpoint references. -/
def World.segmentRemove (w : World) (sid : ℕ) : Option World := do
  let s ← w.segs sid
  let oid ← s.origin
  let o ← w.nodes oid
  let w1 := w.setNode oid (o.removeSegment sid)
  let did ← s.destination
  let d ← w1.nodes did
  let w2 := w1.setNode did (d.removeSegment sid)
  some (w2.setSeg sid { s with origin := none, destination := none })

/-- Length of the segment list of node nid (0 when the node is absent). -/
def World.segCount (w : World) (nid : ℕ) : ℕ :=
  ((w.nodes nid).map fun n => n.segments.length).getD 0

/-- Node removal (Particle.prototype.remove running
Node.prototype.onRemove): while this.segments is nonempty, shift off the
head and call remove() on that segment.  The returned number counts loop
iterations.  The loop terminates because shift shortens the list and a
segment removal never lengthens any segment list. -/
def World.nodeRemove (w : World) (nid : ℕ) : Option (World × ℕ) :=
  match hn : w.nodes nid with
  | none => none
  | some n =>
    match hs : n.segments with
    | [] => some (w, 0)
    | sid :: rest =>
      match hr : (w.setNode nid { n with segments := rest }).segmentRemove sid with
      | none => none
      | some w2 =>
        match w2.nodeRemove nid with
        | none => none
        | some (w3, c) => some (w3, c + 1)
termination_by w.segCount nid
decreasing_by
  have hlen : ∀ (a : List ℕ) (t : ℕ), (removeFirst a t).length ≤ a.length := by
    intro a t
    induction a with
    | nil => exact le_refl _
    | cons x xs ih =>
      simp only [removeFirst]
      by_cases hx : x = t
      · rw [if_pos hx]
        exact Nat.le_succ _
      · rw [if_neg hx]
        exact Nat.succ_le_succ ih
  have key : ∀ (u u' : World) (t m : ℕ), u.segmentRemove t = some u' →
      u'.segCount m ≤ u.segCount m := by
    intro u u' t m h
    simp only [World.segmentRemove, Option.bind_eq_bind', Option.bind_eq_some,
      Option.some.injEq] at h
    obtain ⟨s, h1, oid, h2, o, h3, did, h4, d, h5, h6⟩ := h
    subst h6
    have hnodes :
        (((u.setNode oid (o.removeSegment t)).setNode did
            (d.removeSegment t)).setSeg t
          { s with origin := none, destination := none }).nodes m =
        if m = did then some (d.removeSegment t)
        else if m = oid then some (o.removeSegment t) else u.nodes m := rfl
    rw [World.segCount, World.segCount, hnodes]
    have h5' : (if did = oid then some (o.removeSegment t) else u.nodes did) =
        some d := by
      rw [← h5]; rfl
    by_cases hm1 : m = did
    · rw [if_pos hm1]
      by_cases hm2 : did = oid
      · rw [if_pos hm2] at h5'
        have hd : d = o.removeSegment t := by
          injection h5' with h5''
          exact h5''.symm
        rw [hm1, hm2, h3, hd]
        simp only [NodeData.removeSegment, Option.map_some', Option.getD_some]
        calc (removeFirst (removeFirst o.segments t) t).length
            ≤ (removeFirst o.segments t).length := hlen _ _
          _ ≤ o.segments.length := hlen _ _
      · rw [if_neg hm2] at h5'
        rw [hm1, h5']
        simp only [NodeData.removeSegment, Option.map_some', Option.getD_some]
        exact hlen _ _
    · rw [if_neg hm1]
      by_cases hm2 : m = oid
      · rw [if_pos hm2, hm2, h3]
        simp only [NodeData.removeSegment, Option.map_some', Option.getD_some]
        exact hlen _ _
      · rw [if_neg hm2]
  have h1 : w2.segCount nid ≤
      (w.setNode nid { n with segments := rest }).segCount nid :=
    key _ _ _ _ hr
  have h2 : (w.setNode nid { n with segments := rest }).segCount nid =
      rest.length := by
    simp [World.segCount, World.setNode]
  have h3 : w.segCount nid = rest.length + 1 := by
    simp [World.segCount, hn, hs]
  omega

/-- How many endpoint roles of the segment record s point at node nid. -/
def roleCount (nid : ℕ) (s : SegmentData) : ℕ :=
  (if s.origin = some nid then 1 else 0) +
    (if s.destination = some nid then 1 else 0)

/-- The bookkeeping invariant the Segment constructor maintains for the
segment list l of node nid: every listed segment exists, both its endpoint
references resolve, and it occurs in l at most once per endpoint role it
has at nid. -/
def World.nodeInv (w : World) (nid : ℕ) (l : List ℕ) : Bool :=
  l.all fun sid =>
    match w.segs sid with
    | none => false
    | some s =>
      match s.origin, s.destination with
      | some oid, some did =>
        (w.nodes oid).isSome && (w.nodes did).isSome &&
          decide (l.count sid ≤ roleCount nid s)
      | _, _ => false

/-- Apply removeFirst when the condition holds, used to describe how one
segment removal rewrites a node segment list. -/
def removeIf (b : Prop) [Decidable b] (l : List ℕ) (s : ℕ) : List ℕ :=
  if b then removeFirst l s else l

/-- The angle Math.atan2(v.y, v.x) in degrees, as baked into the rotate
transform string (its numeral is a fixed-format rendering of this value). -/
noncomputable def atan2deg (v : Vec) : ℝ :=
  Complex.arg ⟨(v.x : ℝ), (v.y : ℝ)⟩ * (180 / Real.pi)

/- Concrete data used by the witnesses and counterexamples, mirroring the
demo bootstrap (50 by 50 nodes, segments of height 5). -/

/-- The demo node dimensions (w = h = 50, center (25, 25)). -/
def dimsNode : Dimensions := mkDimensions 50 50

/-- The demo segment dimensions (no width option, height 5). -/
def dimsSeg : Dimensions := mkDimensions 0 5

/-- A fresh demo node at the given coordinates. -/
def nodeAt (x y : ℚ) : NodeData :=
  { dimensions := dimsNode, translate := ⟨x, y⟩, segments := [],
    clickCoords := ⟨0, 0⟩, dragging := false }

/-- A demo segment record pointing from node oid to node did, with a
canvas (arrowhead) width of 17 pixels. -/
def segBetween (oid did : ℕ) : SegmentData :=
  { dimensions := dimsSeg, translate := ⟨0, 0⟩, origin := some oid,
    destination := some did, distance := ⟨0, 0⟩, rotate := ⟨0, 0⟩,
    elWidth := 0, canvasWidth := 17 }

/-- Node 0 of the two-node example: mid drag, offset (5,5) recorded. -/
def n0Ex : NodeData :=
  { nodeAt 100 200 with segments := [0], clickCoords := ⟨5, 5⟩, dragging := true }

/-- Node 1 of the two-node example. -/
def n1Ex : NodeData :=
  { nodeAt 350 150 with segments := [0] }

/-- Two nodes joined by segment 0, with node 0 mid drag. -/
def wPair : World where
  nodes := fun m => if m = 0 then some n0Ex else if m = 1 then some n1Ex else none
  segs := fun m => if m = 0 then some (segBetween 0 1) else none
  moveListeners := [0]

/-- The heap wPair after segment 0 has been removed, written out as the
updates segmentRemove performs. -/
def wPairRemoved : World :=
  ((wPair.setNode 0 (n0Ex.removeSegment 0)).setNode 1
      (n1Ex.removeSegment 0)).setSeg 0
    { segBetween 0 1 with origin := none, destination := none }

/-- A node with two incident segments, plus their far endpoints. -/
def wCascade : World where
  nodes := fun m =>
    if m = 0 then some { nodeAt 0 0 with segments := [10, 11] }
    else if m = 1 then some { nodeAt 30 40 with segments := [10] }
    else if m = 2 then some { nodeAt 7 9 with segments := [11] }
    else none
  segs := fun m =>
    if m = 10 then some (segBetween 0 1)
    else if m = 11 then some (segBetween 0 2)
    else none
  moveListeners := []

/-- A node carrying a self-loop segment: the constructor registered the
segment once per endpoint role, so it sits in the list twice. -/
def wSelf : World where
  nodes := fun m => if m = 0 then some { nodeAt 0 0 with segments := [5, 5] } else none
  segs := fun m => if m = 5 then some (segBetween 0 0) else none
  moveListeners := []

/-- Two idle nodes, no segments, no listeners. -/
def wTwo : World where
  nodes := fun m =>
    if m = 0 then some (nodeAt 100 200)
    else if m = 1 then some (nodeAt 200 50)
    else none
  segs := fun _ => none
  moveListeners := []

/-- wTwo after a drag start on node 0 at offset (5,5), written out as the
updates onDragStart performs. -/
def wTwoStart : World :=
  World.setNode { wTwo with moveListeners := wTwo.moveListeners ++ [0] } 0
    { nodeAt 100 200 with dragging := true, clickCoords := ⟨5, 5⟩ }

/-- wTwoStart after a drag end on node 0, written out as the updates
onDragEnd performs. -/
def wTwoEnd : World :=
  { World.setNode wTwoStart 0
      { { nodeAt 100 200 with dragging := true, clickCoords := ⟨5, 5⟩ } with
        dragging := false } with
    moveListeners := [] }

/-- A node list with a duplicate entry, for exercising removeSegment. -/
def nDup : NodeData :=
  { nodeAt 0 0 with segments := [1, 2, 1] }

/-- wTwoStart after a second drag start, on node 1 at offset (2,2), while
node 0 is still mid drag: both nodes now carry the dragging class and both
onDrag handlers are bound. -/
def wTwoBoth : World :=
  World.setNode { wTwoStart with moveListeners := wTwoStart.moveListeners ++ [1] }
    1 { nodeAt 200 50 with dragging := true, clickCoords := ⟨2, 2⟩ }

/-- The node of wSelf after the shift of the first loop iteration. -/
def nSelfShift : NodeData :=
  { { nodeAt 0 0 with segments := [5, 5] } with segments := [5] }

/-- The heap of wSelf after the first cascading-removal iteration: the
shift dropped one list entry and the segment removal dropped the
duplicate, written out as the updates segmentRemove performs. -/
def wSelfStep : World :=
  (((wSelf.setNode 0 nSelfShift).setNode 0
      (nSelfShift.removeSegment 5)).setNode 0
      ((nSelfShift.removeSegment 5).removeSegment 5)).setSeg 5
    { segBetween 0 0 with origin := none, destination := none }

/- Heap lookup lemmas. -/

@[simp]
theorem setNode_nodes_self (w : World) (nid : ℕ) (n : NodeData) :
    (w.setNode nid n).nodes nid = some n := by
  simp [World.setNode]

theorem setNode_nodes_ne (w : World) (nid : ℕ) (n : NodeData) {m : ℕ}
    (h : m ≠ nid) : (w.setNode nid n).nodes m = w.nodes m := by
  simp [World.setNode, h]

@[simp]
theorem setNode_segs (w : World) (nid : ℕ) (n : NodeData) :
    (w.setNode nid n).segs = w.segs := rfl

@[simp]
theorem setNode_moveListeners (w : World) (nid : ℕ) (n : NodeData) :
    (w.setNode nid n).moveListeners = w.moveListeners := rfl

@[simp]
theorem setSeg_segs_self (w : World) (sid : ℕ) (s : SegmentData) :
    (w.setSeg sid s).segs sid = some s := by
  simp [World.setSeg]

theorem setSeg_segs_ne (w : World) (sid : ℕ) (s : SegmentData) {m : ℕ}
    (h : m ≠ sid) : (w.setSeg sid s).segs m = w.segs m := by
  simp [World.setSeg, h]

@[simp]
theorem setSeg_nodes (w : World) (sid : ℕ) (s : SegmentData) :
    (w.setSeg sid s).nodes = w.nodes := rfl

@[simp]
theorem setSeg_moveListeners (w : World) (sid : ℕ) (s : SegmentData) :
    (w.setSeg sid s).moveListeners = w.moveListeners := rfl

/- removeFirst lemmas. -/

theorem removeFirst_length_le (l : List ℕ) (s : ℕ) :
    (removeFirst l s).length ≤ l.length := by
  induction l with
  | nil => exact le_refl _
  | cons x xs ih =>
    simp only [removeFirst]
    by_cases hx : x = s
    · rw [if_pos hx]
      exact Nat.le_succ _
    · rw [if_neg hx]
      exact Nat.succ_le_succ ih

theorem removeFirst_count_self (l : List ℕ) (s : ℕ) :
    (removeFirst l s).count s = l.count s - 1 := by
  induction l with
  | nil => simp [removeFirst]
  | cons x xs ih =>
    simp only [removeFirst]
    by_cases hx : x = s
    · rw [if_pos hx, hx]
      simp [List.count_cons]
    · rw [if_neg hx]
      simp only [List.count_cons, ih]
      have : ¬(x = s) := hx
      simp [this]

theorem removeFirst_count_ne (l : List ℕ) {s b : ℕ} (h : b ≠ s) :
    (removeFirst l s).count b = l.count b := by
  induction l with
  | nil => simp [removeFirst]
  | cons x xs ih =>
    simp only [removeFirst]
    by_cases hx : x = s
    · rw [if_pos hx]
      have : ¬(x = b) := by
        rw [hx]
        exact fun hc => h hc.symm
      simp [List.count_cons, this]
    · rw [if_neg hx]
      simp [List.count_cons, ih]

theorem removeFirst_count_le (l : List ℕ) (s b : ℕ) :
    (removeFirst l s).count b ≤ l.count b := by
  by_cases h : b = s
  · rw [h, removeFirst_count_self]
    omega
  · rw [removeFirst_count_ne l h]

theorem removeFirst_of_count_eq_zero {l : List ℕ} {s : ℕ}
    (h : l.count s = 0) : removeFirst l s = l := by
  induction l with
  | nil => rfl
  | cons x xs ih =>
    simp only [List.count_cons] at h
    simp only [removeFirst]
    by_cases hx : x = s
    · simp [hx] at h
    · rw [if_neg hx]
      have : xs.count s = 0 := by
        by_cases hxs : x = s
        · exact absurd hxs hx
        · simpa [hxs] using h
      rw [ih this]

theorem removeFirst_append_first {l₁ : List ℕ} (l₂ : List ℕ) {s : ℕ}
    (h : s ∉ l₁) : removeFirst (l₁ ++ s :: l₂) s = l₁ ++ l₂ := by
  induction l₁ with
  | nil => simp [removeFirst]
  | cons x xs ih =>
    have hx : x ≠ s := fun hc => h (by simp [hc])
    have hrest : s ∉ xs := fun hc => h (List.mem_cons_of_mem _ hc)
    show removeFirst (x :: (xs ++ s :: l₂)) s = x :: (xs ++ l₂)
    simp only [removeFirst]
    rw [if_neg hx, ih hrest]

/- ceilSqrt lemmas: ceilSqrt q is the least natural number whose square
dominates q, and it coincides with the ceiling of the real square root. -/

theorem ceilSqrt_spec (q : ℚ) : q ≤ ((ceilSqrt q : ℕ) : ℚ) ^ 2 := by
  have h1 : q ≤ (((⌈q⌉).toNat : ℤ) : ℚ) :=
    le_trans (Int.le_ceil q) (by exact_mod_cast Int.self_le_toNat _)
  unfold ceilSqrt
  by_cases hperf : Nat.sqrt ((⌈q⌉).toNat) * Nat.sqrt ((⌈q⌉).toNat) = (⌈q⌉).toNat
  · rw [if_pos hperf]
    calc q ≤ (((⌈q⌉).toNat : ℤ) : ℚ) := h1
      _ = ((Nat.sqrt ((⌈q⌉).toNat) * Nat.sqrt ((⌈q⌉).toNat) : ℕ) : ℚ) := by
        rw [hperf]; push_cast; ring
      _ = ((Nat.sqrt ((⌈q⌉).toNat) : ℕ) : ℚ) ^ 2 := by push_cast; ring
  · rw [if_neg hperf]
    have h2 := Nat.lt_succ_sqrt ((⌈q⌉).toNat)
    calc q ≤ (((⌈q⌉).toNat : ℤ) : ℚ) := h1
      _ ≤ (((Nat.sqrt ((⌈q⌉).toNat) + 1) * (Nat.sqrt ((⌈q⌉).toNat) + 1) : ℕ) : ℚ) := by
        exact_mod_cast le_of_lt h2
      _ = ((Nat.sqrt ((⌈q⌉).toNat) + 1 : ℕ) : ℚ) ^ 2 := by push_cast; ring

theorem ceilSqrt_min {q : ℚ} {n : ℕ} (h : q ≤ (n : ℚ) ^ 2) : ceilSqrt q ≤ n := by
  have hcn : (⌈q⌉).toNat ≤ n * n := by
    rw [Int.toNat_le, Int.ceil_le]
    push_cast
    nlinarith [h]
  unfold ceilSqrt
  by_cases hperf : Nat.sqrt ((⌈q⌉).toNat) * Nat.sqrt ((⌈q⌉).toNat) = (⌈q⌉).toNat
  · rw [if_pos hperf]
    calc Nat.sqrt ((⌈q⌉).toNat) ≤ Nat.sqrt (n * n) := Nat.sqrt_le_sqrt hcn
      _ = n := Nat.sqrt_eq n
  · rw [if_neg hperf]
    by_contra hcon
    push_neg at hcon
    have hn1 : n ≤ Nat.sqrt ((⌈q⌉).toNat) := by omega
    have hn2 : n * n ≤ Nat.sqrt ((⌈q⌉).toNat) * Nat.sqrt ((⌈q⌉).toNat) :=
      Nat.mul_le_mul hn1 hn1
    have hn3 := Nat.sqrt_le ((⌈q⌉).toNat)
    have heq : (⌈q⌉).toNat = n * n := by omega
    have : Nat.sqrt ((⌈q⌉).toNat) * Nat.sqrt ((⌈q⌉).toNat) = (⌈q⌉).toNat := by
      rw [heq, Nat.sqrt_eq]
    exact hperf this

theorem ceilSqrt_eq_ceil_sqrt {q : ℚ} (hq : 0 ≤ q) :
    ((ceilSqrt q : ℕ) : ℤ) = ⌈Real.sqrt ((q : ℝ))⌉ := by
  have hq' : (0 : ℝ) ≤ (q : ℝ) := by exact_mod_cast hq
  have hm0 : 0 ≤ ⌈Real.sqrt ((q : ℝ))⌉ := Int.ceil_nonneg (Real.sqrt_nonneg _)
  refine le_antisymm ?_ ?_
  · have hcast : (((⌈Real.sqrt ((q : ℝ))⌉).toNat : ℕ) : ℝ) =
        ((⌈Real.sqrt ((q : ℝ))⌉ : ℤ) : ℝ) := by
      exact_mod_cast Int.toNat_of_nonneg hm0
    have hle : Real.sqrt ((q : ℝ)) ≤ (((⌈Real.sqrt ((q : ℝ))⌉).toNat : ℕ) : ℝ) := by
      rw [hcast]
      exact Int.le_ceil _
    have hsq : (q : ℝ) ≤ (((⌈Real.sqrt ((q : ℝ))⌉).toNat : ℕ) : ℝ) ^ 2 := by
      nlinarith [Real.sq_sqrt hq', Real.sqrt_nonneg ((q : ℝ)), hle]
    have hq2 : q ≤ (((⌈Real.sqrt ((q : ℝ))⌉).toNat : ℕ) : ℚ) ^ 2 := by
      exact_mod_cast hsq
    have h3 : ceilSqrt q ≤ (⌈Real.sqrt ((q : ℝ))⌉).toNat := ceilSqrt_min hq2
    have h4 : ((ceilSqrt q : ℕ) : ℤ) ≤ (((⌈Real.sqrt ((q : ℝ))⌉).toNat : ℕ) : ℤ) := by
      exact_mod_cast h3
    rw [Int.toNat_of_nonneg hm0] at h4
    exact h4
  · rw [Int.ceil_le]
    have h1 : (q : ℝ) ≤ ((ceilSqrt q : ℕ) : ℝ) ^ 2 := by
      exact_mod_cast ceilSqrt_spec q
    have h2 : Real.sqrt ((q : ℝ)) ≤ ((ceilSqrt q : ℕ) : ℝ) := by
      calc Real.sqrt ((q : ℝ)) ≤ Real.sqrt (((ceilSqrt q : ℕ) : ℝ) ^ 2) :=
          Real.sqrt_le_sqrt h1
        _ = ((ceilSqrt q : ℕ) : ℝ) := Real.sqrt_sq (by positivity)
    exact_mod_cast h2

/- calculateWidth lemmas. -/

theorem ite_neg_eq_max (a : ℚ) : (if a < 0 then 0 else a) = max 0 a := by
  by_cases h : a < 0
  · rw [if_pos h, max_eq_left (le_of_lt h)]
  · rw [if_neg h, max_eq_right (not_lt.mp h)]

theorem calculateWidth_eq_max (cx cw : ℚ) (v : Vec) :
    calculateWidth cx cw v =
      max 0 ((ceilSqrt (v.x ^ 2 + v.y ^ 2) : ℚ) - cx - cw) := by
  unfold calculateWidth
  exact ite_neg_eq_max _

theorem calculateWidth_nonneg (cx cw : ℚ) (v : Vec) :
    0 ≤ calculateWidth cx cw v := by
  rw [calculateWidth_eq_max]
  exact le_max_left _ _

/- calculateRotation lemmas. -/

theorem calculateRotation_inv {w w' : World} {sid : ℕ}
    (h : w.calculateRotation sid = some w') :
    ∃ s oid o did d, w.segs sid = some s ∧ s.origin = some oid ∧
      w.nodes oid = some o ∧ s.destination = some did ∧ w.nodes did = some d ∧
      w' = w.setSeg sid (s.calculateRotationWith o d) := by
  simp only [World.calculateRotation, Option.bind_eq_bind', Option.bind_eq_some,
    Option.some.injEq] at h
  obtain ⟨s, h1, oid, h2, o, h3, did, h4, d, h5, h6⟩ := h
  exact ⟨s, oid, o, did, d, h1, h2, h3, h4, h5, h6.symm⟩

theorem calculateRotation_nodes {w w' : World} {sid : ℕ}
    (h : w.calculateRotation sid = some w') : w'.nodes = w.nodes := by
  obtain ⟨s, oid, o, did, d, _, _, _, _, _, rfl⟩ := calculateRotation_inv h
  rfl

theorem calculateRotation_listeners {w w' : World} {sid : ℕ}
    (h : w.calculateRotation sid = some w') :
    w'.moveListeners = w.moveListeners := by
  obtain ⟨s, oid, o, did, d, _, _, _, _, _, rfl⟩ := calculateRotation_inv h
  rfl

theorem calculateRotation_segs_ne {w w' : World} {sid : ℕ}
    (h : w.calculateRotation sid = some w') {m : ℕ} (hm : m ≠ sid) :
    w'.segs m = w.segs m := by
  obtain ⟨s, oid, o, did, d, _, _, _, _, _, rfl⟩ := calculateRotation_inv h
  exact setSeg_segs_ne _ _ _ hm

theorem segWF_iff {w : World} {sid : ℕ} :
    w.segWF sid = true ↔
      ∃ s oid did, w.segs sid = some s ∧ s.origin = some oid ∧
        s.destination = some did ∧ (w.nodes oid).isSome = true ∧
        (w.nodes did).isSome = true := by
  unfold World.segWF
  cases h1 : w.segs sid with
  | none => simp
  | some s =>
    cases h2 : s.origin with
    | none => cases h3 : s.destination <;> simp [h2, h3]
    | some oid =>
      cases h3 : s.destination with
      | none => simp [h2, h3]
      | some did => simp [h2, h3, Bool.and_eq_true]

theorem calculateRotation_total {w : World} {sid : ℕ} (h : w.segWF sid = true) :
    ∃ w', w.calculateRotation sid = some w' := by
  rw [segWF_iff] at h
  obtain ⟨s, oid, did, h1, h2, h3, h4, h5⟩ := h
  obtain ⟨o, ho⟩ := Option.isSome_iff_exists.mp h4
  obtain ⟨d, hd⟩ := Option.isSome_iff_exists.mp h5
  refine ⟨w.setSeg sid (s.calculateRotationWith o d), ?_⟩
  simp only [World.calculateRotation, Option.bind_eq_bind']
  rw [h1, Option.some_bind, h2, Option.some_bind, ho, Option.some_bind, h3,
    Option.some_bind, hd, Option.some_bind]

theorem geomOK_of_calculateRotation {w w' : World} {sid : ℕ}
    (h : w.calculateRotation sid = some w') : w'.geomOK sid := by
  obtain ⟨s, oid, o, did, d, h1, h2, h3, h4, h5, rfl⟩ := calculateRotation_inv h
  intro s₀ hs₀
  rw [setSeg_segs_self] at hs₀
  injection hs₀ with hs₀
  subst hs₀
  refine ⟨oid, o, did, d, h2, h3, h4, h5, rfl, ?_, rfl, rfl⟩
  show (⟨(o.translate.x - d.translate.x) * (-1),
         (o.translate.y - d.translate.y) * (-1)⟩ : Vec) =
    ⟨d.translate.x - o.translate.x, d.translate.y - o.translate.y⟩
  congr 1 <;> ring

theorem geomOK_congr {w w' : World} {sid : ℕ} (h : w.geomOK sid)
    (hn : w'.nodes = w.nodes) (hs : w'.segs sid = w.segs sid) :
    w'.geomOK sid := by
  intro s hs₀
  rw [hs] at hs₀
  obtain ⟨oid, o, did, d, a1, a2, a3, a4, a5, a6, a7, a8⟩ := h s hs₀
  exact ⟨oid, o, did, d, a1, by rw [hn]; exact a2, a3, by rw [hn]; exact a4,
    a5, a6, a7, a8⟩

theorem segWF_of_calculateRotation {w w' : World} {sid : ℕ}
    (h : w.calculateRotation sid = some w') {m : ℕ}
    (hm : w.segWF m = true) : w'.segWF m = true := by
  obtain ⟨s, oid, o, did, d, h1, h2, h3, h4, h5, rfl⟩ := calculateRotation_inv h
  rw [segWF_iff] at hm ⊢
  obtain ⟨s', oid', did', b1, b2, b3, b4, b5⟩ := hm
  by_cases hms : m = sid
  · subst hms
    rw [h1] at b1
    injection b1 with b1
    subst b1
    exact ⟨s.calculateRotationWith o d, oid', did', by rw [setSeg_segs_self],
      b2, b3, b4, b5⟩
  · exact ⟨s', oid', did', by rw [setSeg_segs_ne _ _ _ hms]; exact b1, b2, b3,
      b4, b5⟩

theorem recalcSegments_sound : ∀ (l : List ℕ) (w : World),
    (∀ sid ∈ l, w.segWF sid = true) →
    ∃ w', w.recalcSegments l = some w' ∧ w'.nodes = w.nodes ∧
      w'.moveListeners = w.moveListeners ∧
      (∀ m, m ∉ l → w'.segs m = w.segs m) ∧
      (∀ sid ∈ l, w'.geomOK sid) := by
  intro l
  induction l with
  | nil =>
    intro w h
    exact ⟨w, rfl, rfl, rfl, fun _ _ => rfl, by simp⟩
  | cons sid rest ih =>
    intro w h
    obtain ⟨w1, hw1⟩ := calculateRotation_total (h sid (by simp))
    have hwf1 : ∀ t ∈ rest, w1.segWF t = true := fun t ht =>
      segWF_of_calculateRotation hw1 (h t (by simp [ht]))
    obtain ⟨w2, hrec, hnodes, hlist, hframe, hgeom⟩ := ih w1 hwf1
    have hnodes1 : w1.nodes = w.nodes := calculateRotation_nodes hw1
    have hlist1 := calculateRotation_listeners hw1
    refine ⟨w2, ?_, ?_, ?_, ?_, ?_⟩
    · simp only [World.recalcSegments, Option.bind_eq_bind']
      rw [hw1, Option.some_bind]
      exact hrec
    · rw [hnodes, hnodes1]
    · rw [hlist, hlist1]
    · intro m hm
      have hm1 : m ≠ sid := fun hc => hm (by simp [hc])
      have hm2 : m ∉ rest := fun hc => hm (by simp [hc])
      rw [hframe m hm2, calculateRotation_segs_ne hw1 hm1]
    · intro t ht
      rcases List.mem_cons.mp ht with rfl | htr
      · by_cases htrest : t ∈ rest
        · exact hgeom t htrest
        · exact geomOK_congr (geomOK_of_calculateRotation hw1) hnodes
            (hframe t htrest)
      · exact hgeom t htr

/- segmentRemove lemmas. -/

theorem setNode_nodes (w : World) (nid : ℕ) (n : NodeData) (m : ℕ) :
    (w.setNode nid n).nodes m = if m = nid then some n else w.nodes m := rfl

theorem setSeg_segs (w : World) (sid : ℕ) (s : SegmentData) (m : ℕ) :
    (w.setSeg sid s).segs m = if m = sid then some s else w.segs m := rfl

theorem segmentRemove_spec {w w' : World} {sid : ℕ}
    (h : w.segmentRemove sid = some w') :
    ∃ s oid did, w.segs sid = some s ∧ s.origin = some oid ∧
      s.destination = some did ∧
      w'.moveListeners = w.moveListeners ∧
      w'.segs sid = some { s with origin := none, destination := none } ∧
      (∀ m, m ≠ sid → w'.segs m = w.segs m) ∧
      (∀ nid n, w.nodes nid = some n →
        w'.nodes nid = some { n with
          segments := removeIf (nid = did)
            (removeIf (nid = oid) n.segments sid) sid }) ∧
      (∀ nid, w.nodes nid = none → w'.nodes nid = none) := by
  simp only [World.segmentRemove, Option.bind_eq_bind', Option.bind_eq_some,
    Option.some.injEq] at h
  obtain ⟨s, h1, oid, h2, o, h3, did, h4, d, h5, h6⟩ := h
  subst h6
  rw [setNode_nodes] at h5
  refine ⟨s, oid, did, h1, h2, h4, rfl, by rw [setSeg_segs_self], ?_, ?_, ?_⟩
  · intro m hm
    rw [setSeg_segs_ne _ _ _ hm]
    rfl
  · intro nid n hn
    simp only [setSeg_nodes, setNode_nodes, removeIf]
    by_cases hd : nid = did <;> by_cases ho : nid = oid
    · have hdo : did = oid := by rw [← hd, ho]
      rw [if_pos hdo] at h5
      injection h5 with h5
      rw [← ho, hn] at h3
      injection h3 with h3
      rw [if_pos hd, if_pos hd, if_pos ho, ← h5, ← h3]
      rfl
    · have hdo : did ≠ oid := fun hc => ho (hd.trans hc)
      rw [if_neg hdo] at h5
      rw [← hd, hn] at h5
      injection h5 with h5
      rw [if_pos hd, if_pos hd, if_neg ho, ← h5]
      rfl
    · rw [← ho, hn] at h3
      injection h3 with h3
      rw [if_neg hd, if_pos ho, if_neg hd, if_pos ho, ← h3]
      rfl
    · rw [if_neg hd, if_neg ho, if_neg hd, if_neg ho, hn]
  · intro nid hn
    have hno : nid ≠ oid := fun hc => by
      rw [hc, h3] at hn
      exact absurd hn (by simp)
    have hnd : nid ≠ did := by
      intro hc
      rw [if_neg (fun hdo : did = oid => hno (hc.trans hdo))] at h5
      rw [← hc, hn] at h5
      exact absurd h5 (by simp)
    show (if nid = did then some (d.removeSegment sid)
      else if nid = oid then some (o.removeSegment sid)
      else w.nodes nid) = none
    rw [if_neg hnd, if_neg hno]
    exact hn

theorem segmentRemove_total {w : World} {sid : ℕ} {s : SegmentData}
    {oid did : ℕ} (h1 : w.segs sid = some s) (h2 : s.origin = some oid)
    (h3 : s.destination = some did) (h4 : (w.nodes oid).isSome = true)
    (h5 : (w.nodes did).isSome = true) :
    ∃ w', w.segmentRemove sid = some w' := by
  obtain ⟨o, ho⟩ := Option.isSome_iff_exists.mp h4
  have hd' : ((w.setNode oid (o.removeSegment sid)).nodes did).isSome = true := by
    rw [setNode_nodes]
    by_cases hod : did = oid
    · rw [if_pos hod]
      rfl
    · rw [if_neg hod]
      exact h5
  obtain ⟨d, hd⟩ := Option.isSome_iff_exists.mp hd'
  refine ⟨((w.setNode oid (o.removeSegment sid)).setNode did
    (d.removeSegment sid)).setSeg sid
    { s with origin := none, destination := none }, ?_⟩
  simp only [World.segmentRemove, Option.bind_eq_bind']
  rw [h1, Option.some_bind, h2, Option.some_bind, ho, Option.some_bind, h3,
    Option.some_bind, hd, Option.some_bind]

/- nodeRemove unfolding lemmas. -/

theorem nodeRemove_nil {w : World} {nid : ℕ} {n : NodeData}
    (hn : w.nodes nid = some n) (hl : n.segments = []) :
    World.nodeRemove w nid = some (w, 0) := by
  rw [World.nodeRemove.eq_def]
  split
  · next heq => rw [hn] at heq; exact absurd heq (by simp)
  · next n' heq =>
    rw [hn] at heq
    injection heq with heq
    subst heq
    split
    · rfl
    · next sid' rest' heq2 => rw [hl] at heq2; exact absurd heq2 (by simp)

theorem nodeRemove_cons {w : World} {nid : ℕ} {n : NodeData} {sid : ℕ}
    {rest : List ℕ} (hn : w.nodes nid = some n)
    (hl : n.segments = sid :: rest) :
    World.nodeRemove w nid =
      ((w.setNode nid { n with segments := rest }).segmentRemove sid).bind
        (fun w2 => (World.nodeRemove w2 nid).map fun p => (p.1, p.2 + 1)) := by
  rw [World.nodeRemove.eq_def]
  split
  · next heq => rw [hn] at heq; exact absurd heq (by simp)
  · next n' heq =>
    rw [hn] at heq
    injection heq with heq
    subst heq
    split
    · next heq2 => rw [hl] at heq2; exact absurd heq2 (by simp)
    · next sid' rest' heq2 =>
      rw [hl] at heq2
      injection heq2 with heq2a heq2b
      subst heq2a
      subst heq2b
      split
      · next hrem =>
        rw [hrem]
        rfl
      · next w2 hrem =>
        rw [hrem, Option.some_bind]
        cases hrec : World.nodeRemove w2 nid with
        | none => rfl
        | some p =>
          rcases p with ⟨w3, c⟩
          rfl

/- removeIf lemmas. -/

theorem removeIf_count_le (b : Prop) [Decidable b] (l : List ℕ) (s m : ℕ) :
    (removeIf b l s).count m ≤ l.count m := by
  unfold removeIf
  split
  · exact removeFirst_count_le _ _ _
  · exact le_refl _

theorem removeIf_count_ne (b : Prop) [Decidable b] (l : List ℕ) {s m : ℕ}
    (h : m ≠ s) : (removeIf b l s).count m = l.count m := by
  unfold removeIf
  split
  · exact removeFirst_count_ne _ h
  · rfl

theorem removeIf_length_le (b : Prop) [Decidable b] (l : List ℕ) (s : ℕ) :
    (removeIf b l s).length ≤ l.length := by
  unfold removeIf
  split
  · exact removeFirst_length_le _ _
  · exact le_refl _

theorem removeIf_of_count_eq_zero (b : Prop) [Decidable b] {l : List ℕ}
    {s : ℕ} (h : l.count s = 0) : removeIf b l s = l := by
  unfold removeIf
  split
  · exact removeFirst_of_count_eq_zero h
  · rfl

/-- The cascading-removal induction: for a node whose incident list
satisfies the registration invariant, Node.prototype.onRemove terminates
with an empty list, nulls every listed segment, leaves other segments
alone, and iterates at most (exactly, when the list has no duplicate)
once per list entry. -/
theorem nodeRemove_cascade : ∀ (k : ℕ) (w : World) (nid : ℕ) (n : NodeData),
    w.nodes nid = some n → n.segments.length ≤ k →
    (∀ sid ∈ n.segments, ∃ s oid did, w.segs sid = some s ∧
      s.origin = some oid ∧ s.destination = some did ∧
      (w.nodes oid).isSome = true ∧ (w.nodes did).isSome = true ∧
      n.segments.count sid ≤ roleCount nid s) →
    ∃ w' c, World.nodeRemove w nid = some (w', c) ∧
      (∃ n', w'.nodes nid = some n' ∧ n'.segments = []) ∧
      (∀ m ∈ n.segments, ∃ s', w'.segs m = some s' ∧ s'.origin = none ∧
        s'.destination = none) ∧
      (∀ m, m ∉ n.segments → w'.segs m = w.segs m) ∧
      c ≤ n.segments.length ∧ (n.segments.Nodup → c = n.segments.length) := by
  intro k
  induction k with
  | zero =>
    intro w nid n hn hlen hinv
    have hl : n.segments = [] := List.length_eq_zero.mp (Nat.le_zero.mp hlen)
    refine ⟨w, 0, nodeRemove_nil hn hl, ⟨n, hn, hl⟩, ?_, ?_, ?_, ?_⟩
    · intro m hm
      rw [hl] at hm
      exact absurd hm (List.not_mem_nil m)
    · intro m _
      rfl
    · simp
    · intro _
      simp [hl]
  | succ k ih =>
    intro w nid n hn hlen hinv
    cases hl : n.segments with
    | nil =>
      refine ⟨w, 0, nodeRemove_nil hn hl, ⟨n, hn, hl⟩, ?_, ?_, ?_, ?_⟩
      · intro m hm
        exact absurd hm (List.not_mem_nil m)
      · intro m _
        rfl
      · simp
      · intro _
        rfl
    | cons sid rest =>
      obtain ⟨s, oid, did, hs1, hs2, hs3, hs4, hs5, hcount⟩ :=
        hinv sid (by rw [hl]; exact List.mem_cons_self sid rest)
      rw [hl] at hcount
      have hn1 : (w.setNode nid { n with segments := rest }).nodes nid =
          some { n with segments := rest } := setNode_nodes_self _ _ _
      have hw1segs : (w.setNode nid { n with segments := rest }).segs sid =
          some s := hs1
      have ho' : ((w.setNode nid { n with segments := rest }).nodes oid).isSome
          = true := by
        rw [setNode_nodes]
        by_cases h : oid = nid
        · rw [if_pos h]
          rfl
        · rw [if_neg h]
          exact hs4
      have hd' : ((w.setNode nid { n with segments := rest }).nodes did).isSome
          = true := by
        rw [setNode_nodes]
        by_cases h : did = nid
        · rw [if_pos h]
          rfl
        · rw [if_neg h]
          exact hs5
      obtain ⟨w2, hrem⟩ := segmentRemove_total hw1segs hs2 hs3 ho' hd'
      obtain ⟨s₂, oid₂, did₂, r1, r2, r3, rml, rsid, rne, rsome, rnone⟩ :=
        segmentRemove_spec hrem
      rw [hw1segs] at r1
      injection r1 with r1
      subst r1
      rw [hs2] at r2
      injection r2 with r2
      subst r2
      rw [hs3] at r3
      injection r3 with r3
      subst r3
      have hw2n : w2.nodes nid = some { n with
          segments := removeIf (nid = did)
            (removeIf (nid = oid) rest sid) sid } :=
        rsome nid { n with segments := rest } hn1
      set l' : List ℕ :=
        removeIf (nid = did) (removeIf (nid = oid) rest sid) sid with hldef
      have hlenl' : l'.length ≤ rest.length :=
        le_trans (removeIf_length_le _ _ _) (removeIf_length_le _ _ _)
      have hcntle : ∀ m, l'.count m ≤ rest.count m := fun m =>
        le_trans (removeIf_count_le _ _ _ _) (removeIf_count_le _ _ _ _)
      have hcnteq : ∀ m, m ≠ sid → l'.count m = rest.count m := fun m hm => by
        rw [hldef, removeIf_count_ne _ _ hm, removeIf_count_ne _ _ hm]
      have hmeml' : ∀ m, m ∈ l' → m ∈ rest := fun m hm =>
        List.count_pos_iff.mp
          (lt_of_lt_of_le (List.count_pos_iff.mpr hm) (hcntle m))
      have hrole : roleCount nid s =
          (if nid = oid then 1 else 0) + (if nid = did then 1 else 0) := by
        unfold roleCount
        rw [hs2, hs3]
        congr 1
        · by_cases h : nid = oid
          · rw [if_pos h, if_pos (by rw [h])]
          · rw [if_neg h, if_neg (fun hc : some oid = some nid => by
              injection hc with hc
              exact h hc.symm)]
        · by_cases h : nid = did
          · rw [if_pos h, if_pos (by rw [h])]
          · rw [if_neg h, if_neg (fun hc : some did = some nid => by
              injection hc with hc
              exact h hc.symm)]
      have hcnt0 : l'.count sid = 0 := by
        rw [List.count_cons_self] at hcount
        rw [hrole] at hcount
        by_cases hO : nid = oid <;> by_cases hD : nid = did
        · rw [hldef]
          unfold removeIf
          rw [if_pos hD, if_pos hO, removeFirst_count_self,
            removeFirst_count_self]
          rw [if_pos hO, if_pos hD] at hcount
          omega
        · rw [hldef]
          unfold removeIf
          rw [if_neg hD, if_pos hO, removeFirst_count_self]
          rw [if_pos hO, if_neg hD] at hcount
          omega
        · rw [hldef]
          unfold removeIf
          rw [if_pos hD, if_neg hO, removeFirst_count_self]
          rw [if_neg hO, if_pos hD] at hcount
          omega
        · rw [if_neg hO, if_neg hD] at hcount
          omega
      have hsidl' : sid ∉ l' := List.count_eq_zero.mp hcnt0
      have hinv2 : ∀ t ∈ l', ∃ st oidt didt, w2.segs t = some st ∧
          st.origin = some oidt ∧ st.destination = some didt ∧
          (w2.nodes oidt).isSome = true ∧ (w2.nodes didt).isSome = true ∧
          l'.count t ≤ roleCount nid st := by
        intro t ht
        have htrest : t ∈ rest := hmeml' t ht
        have htl : t ∈ n.segments := by
          rw [hl]
          exact List.mem_cons_of_mem _ htrest
        obtain ⟨st, oidt, didt, a1, a2, a3, a4, a5, a6⟩ := hinv t htl
        have htne : t ≠ sid := fun hc => hsidl' (hc ▸ ht)
        have hnodesome : ∀ q : ℕ, (w.nodes q).isSome = true →
            (w2.nodes q).isSome = true := by
          intro q hq
          obtain ⟨x, hx⟩ := Option.isSome_iff_exists.mp hq
          by_cases hqn : q = nid
          · rw [hqn]
            rw [rsome nid { n with segments := rest } hn1]
            rfl
          · have hw1q : (w.setNode nid { n with segments := rest }).nodes q =
                some x := by
              rw [setNode_nodes, if_neg hqn]
              exact hx
            rw [rsome q x hw1q]
            rfl
        refine ⟨st, oidt, didt, ?_, a2, a3, hnodesome oidt a4,
          hnodesome didt a5, ?_⟩
        · rw [rne t htne]
          exact a1
        · calc l'.count t ≤ rest.count t := hcntle t
            _ ≤ (sid :: rest).count t := by
              rw [List.count_cons]
              omega
            _ = n.segments.count t := by rw [hl]
            _ ≤ roleCount nid st := a6
      have hlen2 : ({ n with segments := l' } : NodeData).segments.length ≤ k := by
        show l'.length ≤ k
        have : rest.length + 1 ≤ k + 1 := by
          rw [← List.length_cons sid rest, ← hl]
          exact hlen
        omega
      obtain ⟨w3, c, hrec, hempty, hnulls, hframe, hcle, hcnodup⟩ :=
        ih w2 nid { n with segments := l' } hw2n hlen2 hinv2
      have hsidnull : ∃ s', w3.segs sid = some s' ∧ s'.origin = none ∧
          s'.destination = none := by
        refine ⟨{ s with origin := none, destination := none }, ?_, rfl, rfl⟩
        rw [hframe sid hsidl']
        exact rsid
      refine ⟨w3, c + 1, ?_, hempty, ?_, ?_, ?_, ?_⟩
      · rw [nodeRemove_cons hn hl, hrem, Option.some_bind, hrec,
          Option.map_some']
      · intro m hm
        rcases List.mem_cons.mp hm with rfl | hmr
        · exact hsidnull
        · by_cases hml' : m ∈ l'
          · exact hnulls m hml'
          · have hms : m = sid := by
              by_contra hne'
              exact hml' (List.count_pos_iff.mp (by
                rw [hcnteq m hne']
                exact List.count_pos_iff.mpr hmr))
            rw [hms]
            exact hsidnull
      · intro m hm
        have hm1 : m ≠ sid := fun hc => hm (hc ▸ List.mem_cons_self sid rest)
        have hm2 : m ∉ rest := fun hc => hm (List.mem_cons_of_mem _ hc)
        have hm3 : m ∉ l' := fun hc => hm2 (hmeml' m hc)
        rw [hframe m hm3, rne m hm1]
        rfl
      · rw [List.length_cons]
        have : c ≤ l'.length := hcle
        omega
      · intro hnd
        obtain ⟨hnd1, hnd2⟩ := List.nodup_cons.mp hnd
        have hrest0 : rest.count sid = 0 := List.count_eq_zero.mpr hnd1
        have hlrest : l' = rest := by
          rw [hldef, removeIf_of_count_eq_zero _ hrest0,
            removeIf_of_count_eq_zero _ hrest0]
        have : c = l'.length := hcnodup (by rw [hlrest]; exact hnd2)
        rw [List.length_cons, this, hlrest]

/- Bool-level invariant to Prop-level invariant. -/

theorem nodeInv_spec {w : World} {nid : ℕ} {l : List ℕ}
    (h : w.nodeInv nid l = true) :
    ∀ sid ∈ l, ∃ s oid did, w.segs sid = some s ∧ s.origin = some oid ∧
      s.destination = some did ∧ (w.nodes oid).isSome = true ∧
      (w.nodes did).isSome = true ∧ l.count sid ≤ roleCount nid s := by
  intro sid hsid
  have hall := List.all_eq_true.mp h sid hsid
  split at hall
  · exact absurd hall (by simp)
  · next s heq =>
    split at hall
    · next oid did ho hd =>
      simp only [Bool.and_eq_true, decide_eq_true_eq] at hall
      obtain ⟨⟨ha, hb⟩, hc⟩ := hall
      exact ⟨s, oid, did, heq, ho, hd, ha, hb, hc⟩
    · next =>
      exact absurd hall (by simp)

theorem segWF_setNode {w : World} {nid : ℕ} {n n' : NodeData}
    (hn : w.nodes nid = some n) {m : ℕ} (h : w.segWF m = true) :
    (w.setNode nid n').segWF m = true := by
  rw [segWF_iff] at h ⊢
  obtain ⟨s, oid, did, a1, a2, a3, a4, a5⟩ := h
  refine ⟨s, oid, did, a1, a2, a3, ?_, ?_⟩
  · rw [setNode_nodes]
    by_cases hq : oid = nid
    · rw [if_pos hq]
      rfl
    · rw [if_neg hq]
      exact a4
  · rw [setNode_nodes]
    by_cases hq : did = nid
    · rw [if_pos hq]
      rfl
    · rw [if_neg hq]
      exact a5

/-- C6: the displacement vector stored by calculateRotation, computed in the
code as (origin - destination) negated component-wise, equals
destination - origin component-wise, for every pair of origin and
destination positions; the two formulas are interchangeable. -/
theorem claim6_displacement (o d : NodeData) (s : SegmentData) :
    (s.calculateRotationWith o d).distance =
      ⟨d.translate.x - o.translate.x, d.translate.y - o.translate.y⟩ := by
  show (⟨(o.translate.x - d.translate.x) * (-1),
         (o.translate.y - d.translate.y) * (-1)⟩ : Vec) = _
  congr 1 <;> ring

/-- C7: removeSegment removes exactly the first occurrence of the given
segment (keeping later duplicates), and is a total no-op when the segment
is absent; being a total function, it signals no error in either case. -/
theorem claim7_removeSegment (n : NodeData) (sid : ℕ) :
    (∀ l₁ l₂, n.segments = l₁ ++ sid :: l₂ → sid ∉ l₁ →
      (n.removeSegment sid).segments = l₁ ++ l₂) ∧
    (sid ∉ n.segments → n.removeSegment sid = n) := by
  constructor
  · intro l₁ l₂ hsplit hfirst
    show removeFirst n.segments sid = l₁ ++ l₂
    rw [hsplit]
    exact removeFirst_append_first l₂ hfirst
  · intro h
    show ({ n with segments := removeFirst n.segments sid } : NodeData) = n
    rw [removeFirst_of_count_eq_zero (List.count_eq_zero.mpr h)]

/-- C8: once a Segment has been removed (origin and destination nulled), a
further geometry recomputation fails on the null-endpoint dereference (the
Option models the thrown TypeError) instead of skipping or producing a
result. -/
theorem claim8_useAfterRemove (w w' : World) (sid : ℕ)
    (h : w.segmentRemove sid = some w') :
    w'.calculateRotation sid = none := by
  obtain ⟨s, oid, did, _, _, _, _, hsid, _, _, _⟩ := segmentRemove_spec h
  simp only [World.calculateRotation, Option.bind_eq_bind']
  rw [hsid, Option.some_bind]
  rfl

/-- C3: the rendered length written by calculateWidth equals the ceiling of
the real Euclidean distance between the endpoints minus the origin
half-width minus the arrowhead canvas width, with negative values clamped
to 0; it is never negative, and for coincident endpoints it is 0. -/
theorem claim3_width (o d : NodeData) (s : SegmentData)
    (hcx : 0 ≤ o.dimensions.center.x) (hcw : 0 ≤ s.canvasWidth) :
    (((s.calculateRotationWith o d).elWidth : ℚ) : ℝ) =
      max 0 ((⌈Real.sqrt (((o.translate.x - d.translate.x : ℚ) : ℝ) ^ 2 +
        ((o.translate.y - d.translate.y : ℚ) : ℝ) ^ 2)⌉ : ℝ) -
        ((o.dimensions.center.x : ℚ) : ℝ) - ((s.canvasWidth : ℚ) : ℝ)) ∧
    0 ≤ (s.calculateRotationWith o d).elWidth ∧
    (o.translate = d.translate → (s.calculateRotationWith o d).elWidth = 0) := by
  have hq : (0 : ℚ) ≤ (o.translate.x - d.translate.x) ^ 2 +
      (o.translate.y - d.translate.y) ^ 2 := by positivity
  have hqmax : (s.calculateRotationWith o d).elWidth =
      max 0 ((ceilSqrt ((o.translate.x - d.translate.x) ^ 2 +
        (o.translate.y - d.translate.y) ^ 2) : ℚ) -
        o.dimensions.center.x - s.canvasWidth) := by
    show calculateWidth o.dimensions.center.x s.canvasWidth
      ⟨(o.translate.x - d.translate.x) * (-1),
       (o.translate.y - d.translate.y) * (-1)⟩ = _
    rw [calculateWidth_eq_max]
    have harg : ((⟨(o.translate.x - d.translate.x) * (-1),
        (o.translate.y - d.translate.y) * (-1)⟩ : Vec).x) ^ 2 +
        ((⟨(o.translate.x - d.translate.x) * (-1),
        (o.translate.y - d.translate.y) * (-1)⟩ : Vec).y) ^ 2 =
        (o.translate.x - d.translate.x) ^ 2 +
        (o.translate.y - d.translate.y) ^ 2 := by
      show ((o.translate.x - d.translate.x) * (-1)) ^ 2 +
        ((o.translate.y - d.translate.y) * (-1)) ^ 2 = _
      ring
    rw [harg]
  refine ⟨?_, ?_, ?_⟩
  · rw [hqmax]
    have hceil := ceilSqrt_eq_ceil_sqrt hq
    have harg2 : (((o.translate.x - d.translate.x) ^ 2 +
        (o.translate.y - d.translate.y) ^ 2 : ℚ) : ℝ) =
        ((o.translate.x - d.translate.x : ℚ) : ℝ) ^ 2 +
        ((o.translate.y - d.translate.y : ℚ) : ℝ) ^ 2 := by
      push_cast
      ring
    rw [← harg2]
    push_cast
    rw [show ((ceilSqrt ((o.translate.x - d.translate.x) ^ 2 +
        (o.translate.y - d.translate.y) ^ 2) : ℕ) : ℝ) =
        ((⌈Real.sqrt ((((o.translate.x - d.translate.x) ^ 2 +
        (o.translate.y - d.translate.y) ^ 2 : ℚ)) : ℝ)⌉ : ℤ) : ℝ) from by
      exact_mod_cast hceil]
    rw [harg2]
    push_cast
    ring_nf
  · rw [hqmax]
    exact le_max_left _ _
  · intro hco
    rw [hqmax]
    have hx : o.translate.x = d.translate.x := by rw [hco]
    have hy : o.translate.y = d.translate.y := by rw [hco]
    rw [hx, hy]
    simp only [sub_self]
    have hz : ceilSqrt ((0 : ℚ) ^ 2 + (0 : ℚ) ^ 2) = 0 := by
      norm_num [ceilSqrt]
    rw [hz]
    have : ((0 : ℕ) : ℚ) - o.dimensions.center.x - s.canvasWidth ≤ 0 := by
      push_cast
      linarith
    exact max_eq_left this

/-- C1: after moving the origin node from P1 (its previous position, which
appears only in the hypothesis P1 dif P2) to P2, calculateRotation succeeds
and stores an anchor, displacement, atan2 pair (hence rotation angle) and
rendered length that are the stated pure functions of the current endpoint
positions alone: the prior derived fields of s (translate, distance,
rotate, elWidth) are universally quantified and absent from the result, so
no history or earlier recompute influences it. -/
theorem claim1_pureGeometry (w : World) (sid oid did : ℕ) (s : SegmentData)
    (o d : NodeData) (P2 : Vec) (hs : w.segs sid = some s)
    (ho : s.origin = some oid) (hd : s.destination = some did)
    (hno : w.nodes oid = some o) (hnd : w.nodes did = some d)
    (hdiff : oid ≠ did) (hP : o.translate ≠ P2) :
    ∃ w' s', (w.setNode oid { o with translate := P2 }).calculateRotation sid
        = some w' ∧
      w'.segs sid = some s' ∧
      s'.translate = ⟨P2.x + o.dimensions.center.x,
        P2.y + o.dimensions.center.y - s.dimensions.center.y⟩ ∧
      s'.distance = ⟨d.translate.x - P2.x, d.translate.y - P2.y⟩ ∧
      s'.rotate = s'.distance ∧
      s'.elWidth = max 0 ((ceilSqrt ((d.translate.x - P2.x) ^ 2 +
        (d.translate.y - P2.y) ^ 2) : ℚ) -
        o.dimensions.center.x - s.canvasWidth) ∧
      atan2deg s'.rotate =
        atan2deg ⟨d.translate.x - P2.x, d.translate.y - P2.y⟩ ∧
      s'.dimensions = s.dimensions ∧ s'.canvasWidth = s.canvasWidth ∧
      s'.origin = s.origin ∧ s'.destination = s.destination := by
  have hdistance :
      (⟨(P2.x - d.translate.x) * (-1), (P2.y - d.translate.y) * (-1)⟩ : Vec) =
      ⟨d.translate.x - P2.x, d.translate.y - P2.y⟩ := by
    congr 1 <;> ring
  refine ⟨(w.setNode oid { o with translate := P2 }).setSeg sid
    (s.calculateRotationWith { o with translate := P2 } d),
    s.calculateRotationWith { o with translate := P2 } d, ?_, ?_, rfl, ?_, rfl,
    ?_, ?_, rfl, rfl, rfl, rfl⟩
  · simp only [World.calculateRotation, Option.bind_eq_bind']
    have h1 : (w.setNode oid { o with translate := P2 }).segs sid = some s := hs
    have h2 : (w.setNode oid { o with translate := P2 }).nodes oid =
        some { o with translate := P2 } := setNode_nodes_self _ _ _
    have h3 : (w.setNode oid { o with translate := P2 }).nodes did = some d := by
      rw [setNode_nodes_ne _ _ _ (fun hc => hdiff hc.symm)]
      exact hnd
    rw [h1, Option.some_bind, ho, Option.some_bind, h2, Option.some_bind, hd,
      Option.some_bind, h3, Option.some_bind]
  · rw [setSeg_segs_self]
  · show (⟨(P2.x - d.translate.x) * (-1),
      (P2.y - d.translate.y) * (-1)⟩ : Vec) = _
    exact hdistance
  · show calculateWidth o.dimensions.center.x s.canvasWidth
      ⟨(P2.x - d.translate.x) * (-1), (P2.y - d.translate.y) * (-1)⟩ = _
    rw [calculateWidth_eq_max]
    have harg : ((⟨(P2.x - d.translate.x) * (-1),
        (P2.y - d.translate.y) * (-1)⟩ : Vec).x) ^ 2 +
        ((⟨(P2.x - d.translate.x) * (-1),
        (P2.y - d.translate.y) * (-1)⟩ : Vec).y) ^ 2 =
        (d.translate.x - P2.x) ^ 2 + (d.translate.y - P2.y) ^ 2 := by
      show ((P2.x - d.translate.x) * (-1)) ^ 2 +
        ((P2.y - d.translate.y) * (-1)) ^ 2 = _
      ring
    rw [harg]
  · show atan2deg ⟨(P2.x - d.translate.x) * (-1),
      (P2.y - d.translate.y) * (-1)⟩ = _
    rw [hdistance]

/-- C2: a mousemove at page coordinates (px, py) on a dragging node with
recorded click offset (ox, oy) sets the node position to exactly
(px - ox, py - oy), and when the handler returns every segment in that
node incident list satisfies the geometry formulas at the new position
(the recomputation happened inside the same handler, synchronously). -/
theorem claim2_dragMove (w : World) (nid : ℕ) (n : NodeData)
    (ox oy px py : ℚ) (hn : w.nodes nid = some n)
    (hdrag : n.dragging = true) (hc : n.clickCoords = ⟨ox, oy⟩)
    (hwf : ∀ sid ∈ n.segments, w.segWF sid = true) :
    ∃ w', w.onDrag nid px py = some w' ∧
      (∃ n', w'.nodes nid = some n' ∧ n'.translate = ⟨px - ox, py - oy⟩) ∧
      ∀ sid ∈ n.segments, w'.geomOK sid := by
  have hwf1 : ∀ sid ∈ n.segments,
      (w.setNode nid { n with translate :=
        ⟨px - n.clickCoords.x, py - n.clickCoords.y⟩ }).segWF sid = true :=
    fun sid hsm => segWF_setNode hn (hwf sid hsm)
  obtain ⟨w', hrec, hnodes, _, _, hgeom⟩ :=
    recalcSegments_sound n.segments
      (w.setNode nid { n with translate :=
        ⟨px - n.clickCoords.x, py - n.clickCoords.y⟩ }) hwf1
  refine ⟨w', ?_, ?_, hgeom⟩
  · simp only [World.onDrag, Option.bind_eq_bind']
    rw [hn, Option.some_bind]
    exact hrec
  · refine ⟨{ n with translate :=
      ⟨px - n.clickCoords.x, py - n.clickCoords.y⟩ }, ?_, ?_⟩
    · rw [hnodes, setNode_nodes_self]
    · rw [hc]

/-- C5: constructing a Segment between distinct nodes with empty incident
lists registers it exactly once in each list; the registration is already
in place straight out of the constructor, and the later attach (which only
reruns calculateRotation) succeeds and changes no node, so the counts are
the same before and after attach. -/
theorem claim5_registration (w : World) (sid a b : ℕ) (na nb : NodeData)
    (dims : Dimensions) (cw : ℚ) (hab : a ≠ b) (hna : w.nodes a = some na)
    (hnb : w.nodes b = some nb) (ha0 : na.segments = [])
    (hb0 : nb.segments = []) :
    ∃ w', w.newSegment sid dims a b cw = some w' ∧
      (∃ na', w'.nodes a = some na' ∧ na'.segments.count sid = 1) ∧
      (∃ nb', w'.nodes b = some nb' ∧ nb'.segments.count sid = 1) ∧
      ∃ w'', w'.segmentAttach sid = some w'' ∧ w''.nodes = w'.nodes := by
  have hba : b ≠ a := fun hc => hab hc.symm
  refine ⟨((w.setSeg sid (mkSegmentData dims a b cw)).setNode a
      (na.addSegment sid)).setNode b (nb.addSegment sid), ?_, ?_, ?_, ?_⟩
  · simp only [World.newSegment, Option.bind_eq_bind']
    have h1 : (w.setSeg sid (mkSegmentData dims a b cw)).nodes a = some na :=
      hna
    have h2 : ((w.setSeg sid (mkSegmentData dims a b cw)).setNode a
        (na.addSegment sid)).nodes b = some nb := by
      rw [setNode_nodes_ne _ _ _ hba]
      exact hnb
    rw [h1, Option.some_bind, h2, Option.some_bind]
  · refine ⟨na.addSegment sid, ?_, ?_⟩
    · rw [setNode_nodes_ne _ _ _ hab, setNode_nodes_self]
    · show (na.segments ++ [sid]).count sid = 1
      rw [ha0]
      simp
  · refine ⟨nb.addSegment sid, ?_, ?_⟩
    · rw [setNode_nodes_self]
    · show (nb.segments ++ [sid]).count sid = 1
      rw [hb0]
      simp
  · have hwf : (((w.setSeg sid (mkSegmentData dims a b cw)).setNode a
        (na.addSegment sid)).setNode b (nb.addSegment sid)).segWF sid
        = true := by
      rw [segWF_iff]
      refine ⟨mkSegmentData dims a b cw, a, b,
        setSeg_segs_self _ _ _, rfl, rfl, ?_, ?_⟩
      · rw [setNode_nodes, if_neg hab, setNode_nodes, if_pos rfl]
        rfl
      · rw [setNode_nodes, if_pos rfl]
        rfl
    obtain ⟨w'', hw''⟩ := calculateRotation_total hwf
    exact ⟨w'', hw'', calculateRotation_nodes hw''⟩

/-- C4: removing a node whose incident list satisfies the registration
invariant (every listed segment exists with resolving endpoints, listed at
most once per endpoint role) empties the incident list and nulls the
origin and destination of every listed segment. -/
theorem claim4_cascade (w : World) (nid : ℕ) (n : NodeData)
    (hn : w.nodes nid = some n) (hinv : w.nodeInv nid n.segments = true) :
    ∃ w' c, w.nodeRemove nid = some (w', c) ∧
      (∃ n', w'.nodes nid = some n' ∧ n'.segments = []) ∧
      ∀ sid ∈ n.segments, ∃ s', w'.segs sid = some s' ∧ s'.origin = none ∧
        s'.destination = none := by
  obtain ⟨w', c, h1, h2, h3, _, _, _⟩ :=
    nodeRemove_cascade n.segments.length w nid n hn (le_refl _)
      (nodeInv_spec hinv)
  exact ⟨w', c, h1, h2, h3⟩

/-- C10 (amended): the cascading-removal loop always terminates, and for a
list of k entries it runs at most k iterations; it runs exactly k when no
segment occurs twice in the list.  (As stated the claim is false: when a
segment own deregistration does find a matching entry in the same list, a
self-loop being the concrete case, an iteration removes two entries, see
the counterexample.) -/
theorem claim10_terminates (w : World) (nid : ℕ) (n : NodeData)
    (hn : w.nodes nid = some n) (hinv : w.nodeInv nid n.segments = true) :
    ∃ w' c, w.nodeRemove nid = some (w', c) ∧ c ≤ n.segments.length ∧
      (n.segments.Nodup → c = n.segments.length) := by
  obtain ⟨w', c, h1, _, _, _, h5, h6⟩ :=
    nodeRemove_cascade n.segments.length w nid n hn (le_refl _)
      (nodeInv_spec hinv)
  exact ⟨w', c, h1, h5, h6⟩

/-- C9 (amended): a drag start appends the node to the global mousemove
handler list rather than overwriting it (so two overlapping drag starts
leave both nodes responding to moves, see the counterexample); a drag end
on any node removes every mousemove handler, after which a mousemove is a
no-op. -/
theorem claim9_listeners (w : World) (nid : ℕ) :
    (∀ offX offY w', w.onDragStart nid offX offY = some w' →
      w'.moveListeners = w.moveListeners ++ [nid]) ∧
    (∀ w', w.onDragEnd nid = some w' →
      w'.moveListeners = [] ∧ ∀ px py, w'.mouseMove px py = some w') := by
  constructor
  · intro offX offY w' h
    simp only [World.onDragStart, Option.bind_eq_bind', Option.bind_eq_some,
      Option.some.injEq] at h
    obtain ⟨n, h1, h2⟩ := h
    rw [← h2]
    rfl
  · intro w' h
    simp only [World.onDragEnd, Option.bind_eq_bind', Option.bind_eq_some,
      Option.some.injEq] at h
    obtain ⟨n, h1, h2⟩ := h
    subst h2
    exact ⟨rfl, fun px py => rfl⟩

/-- Witness for C1: concrete two-node world, origin moved from (100,200)
to (120,210). -/
theorem claim1_witness :
    ((0 : ℕ) ≠ 1) ∧ n0Ex.translate ≠ (⟨120, 210⟩ : Vec) ∧
    ∃ w' s', (wPair.setNode 0 { n0Ex with translate := ⟨120, 210⟩
      }).calculateRotation 0 = some w' ∧
      w'.segs 0 = some s' ∧
      s'.translate = ⟨(120 : ℚ) + n0Ex.dimensions.center.x,
        (210 : ℚ) + n0Ex.dimensions.center.y -
          (segBetween 0 1).dimensions.center.y⟩ ∧
      s'.distance = ⟨n1Ex.translate.x - 120, n1Ex.translate.y - 210⟩ ∧
      s'.rotate = s'.distance ∧
      s'.elWidth = max 0 ((ceilSqrt ((n1Ex.translate.x - 120) ^ 2 +
        (n1Ex.translate.y - 210) ^ 2) : ℚ) -
        n0Ex.dimensions.center.x - (segBetween 0 1).canvasWidth) ∧
      atan2deg s'.rotate =
        atan2deg ⟨n1Ex.translate.x - 120, n1Ex.translate.y - 210⟩ ∧
      s'.dimensions = (segBetween 0 1).dimensions ∧
      s'.canvasWidth = (segBetween 0 1).canvasWidth ∧
      s'.origin = (segBetween 0 1).origin ∧
      s'.destination = (segBetween 0 1).destination :=
  ⟨by decide, by norm_num [n0Ex, nodeAt, Vec.mk.injEq],
    claim1_pureGeometry wPair 0 0 1 (segBetween 0 1) n0Ex n1Ex ⟨120, 210⟩
      rfl rfl rfl rfl rfl (by decide)
      (by norm_num [n0Ex, nodeAt, Vec.mk.injEq])⟩

/-- Witness for C2: node 0 of wPair, dragging with offset (5,5), moved to
page coordinates (210,80). -/
theorem claim2_witness :
    n0Ex.dragging = true ∧ n0Ex.clickCoords = (⟨5, 5⟩ : Vec) ∧
    (∀ sid ∈ n0Ex.segments, wPair.segWF sid = true) ∧
    ∃ w', wPair.onDrag 0 210 80 = some w' ∧
      (∃ n', w'.nodes 0 = some n' ∧ n'.translate = ⟨210 - 5, 80 - 5⟩) ∧
      ∀ sid ∈ n0Ex.segments, w'.geomOK sid :=
  ⟨rfl, rfl, by decide,
    claim2_dragMove wPair 0 n0Ex 5 5 210 80 rfl rfl rfl (by decide)⟩

/-- Witness for C3: two demo nodes at the same coordinates give rendered
length 0. -/
theorem claim3_witness :
    0 ≤ (nodeAt 100 200).dimensions.center.x ∧
    0 ≤ (segBetween 0 1).canvasWidth ∧
    ((segBetween 0 1).calculateRotationWith (nodeAt 100 200)
      (nodeAt 100 200)).elWidth = 0 :=
  ⟨by norm_num [nodeAt, dimsNode, mkDimensions],
    by norm_num [segBetween],
    (claim3_width (nodeAt 100 200) (nodeAt 100 200) (segBetween 0 1)
      (by norm_num [nodeAt, dimsNode, mkDimensions])
      (by norm_num [segBetween])).2.2 rfl⟩

/-- Witness for C4: a node with two incident segments, both removed and
nulled. -/
theorem claim4_witness :
    wCascade.nodes 0 = some { nodeAt 0 0 with segments := [10, 11] } ∧
    wCascade.nodeInv 0
      ({ nodeAt 0 0 with segments := [10, 11] } : NodeData).segments = true ∧
    ∃ w' c, wCascade.nodeRemove 0 = some (w', c) ∧
      (∃ n', w'.nodes 0 = some n' ∧ n'.segments = []) ∧
      ∀ sid ∈ ({ nodeAt 0 0 with segments := [10, 11] } : NodeData).segments,
        ∃ s', w'.segs sid = some s' ∧ s'.origin = none ∧
          s'.destination = none :=
  ⟨rfl, by decide, claim4_cascade wCascade 0 _ rfl (by decide)⟩

/-- Witness for C5: a fresh segment between the two empty nodes of wTwo. -/
theorem claim5_witness :
    ((0 : ℕ) ≠ 1) ∧ (nodeAt 100 200).segments = [] ∧
    (nodeAt 200 50).segments = [] ∧
    ∃ w', wTwo.newSegment 7 dimsSeg 0 1 17 = some w' ∧
      (∃ na', w'.nodes 0 = some na' ∧ na'.segments.count 7 = 1) ∧
      (∃ nb', w'.nodes 1 = some nb' ∧ nb'.segments.count 7 = 1) ∧
      ∃ w'', w'.segmentAttach 7 = some w'' ∧ w''.nodes = w'.nodes :=
  ⟨by decide, rfl, rfl,
    claim5_registration wTwo 7 0 1 (nodeAt 100 200) (nodeAt 200 50) dimsSeg 17
      (by decide) rfl rfl rfl rfl⟩

/-- Witness for C7: first-occurrence removal keeps the later duplicate, and
removal from an empty list is a no-op. -/
theorem claim7_witness :
    (nDup.removeSegment 1).segments = [] ++ [2, 1] ∧
    (nodeAt 0 0).removeSegment 5 = nodeAt 0 0 :=
  ⟨(claim7_removeSegment nDup 1).1 [] [2, 1] rfl (by decide),
    (claim7_removeSegment (nodeAt 0 0) 5).2 (by decide)⟩

/-- Witness for C8: removing segment 0 of wPair makes a further
calculateRotation fail. -/
theorem claim8_witness :
    wPair.segmentRemove 0 = some wPairRemoved ∧
    wPairRemoved.calculateRotation 0 = none :=
  ⟨rfl, claim8_useAfterRemove wPair wPairRemoved 0 rfl⟩

/-- Witness for C9 (amended): a drag start on node 0 of wTwo appends its
handler; the following drag end clears the handler list and makes a
mousemove a no-op. -/
theorem claim9_witness :
    wTwoStart.moveListeners = wTwo.moveListeners ++ [0] ∧
    wTwoEnd.moveListeners = [] ∧
    wTwoEnd.mouseMove 210 80 = some wTwoEnd :=
  ⟨(claim9_listeners wTwo 0).1 5 5 wTwoStart rfl,
    ((claim9_listeners wTwoStart 0).2 wTwoEnd rfl).1,
    ((claim9_listeners wTwoStart 0).2 wTwoEnd rfl).2 210 80⟩

/-- Witness for C10 (amended): the two-segment node of wCascade is removed
in exactly two iterations (its list has no duplicate). -/
theorem claim10_witness :
    wCascade.nodes 0 = some { nodeAt 0 0 with segments := [10, 11] } ∧
    wCascade.nodeInv 0
      ({ nodeAt 0 0 with segments := [10, 11] } : NodeData).segments = true ∧
    ∃ w' c, wCascade.nodeRemove 0 = some (w', c) ∧
      c ≤ ({ nodeAt 0 0 with segments := [10, 11] } : NodeData).segments.length ∧
      (({ nodeAt 0 0 with segments := [10, 11] } : NodeData).segments.Nodup →
        c = ({ nodeAt 0 0 with segments := [10, 11] } :
          NodeData).segments.length) :=
  ⟨rfl, by decide, claim10_terminates wCascade 0 _ rfl (by decide)⟩

/-- Counterexample for C9: starting a drag on node 1 while node 0 is still
dragging leaves BOTH nodes in the dragging state (refuting at most one
Node dragging at a time), and a single mousemove then moves both nodes
(refuting never leaves both Nodes responding): the jQuery on call appends
the second handler instead of overwriting the first. -/
theorem claim9_cex :
    wTwo.onDragStart 0 5 5 = some wTwoStart ∧
    wTwoStart.onDragStart 1 2 2 = some wTwoBoth ∧
    (wTwoBoth.nodes 0).map NodeData.dragging = some true ∧
    (wTwoBoth.nodes 1).map NodeData.dragging = some true ∧
    (wTwoBoth.mouseMove 210 80).map (fun wf =>
      ((wf.nodes 0).map fun n => n.translate,
       (wf.nodes 1).map fun n => n.translate)) =
      some (some ⟨205, 75⟩, some ⟨208, 78⟩) := by
  refine ⟨rfl, rfl, rfl, rfl, ?_⟩
  show (((wTwoBoth.moveListeners).foldlM
    (fun acc nid => World.onDrag acc nid 210 80) wTwoBoth).map _) = _
  norm_num [wTwoBoth, wTwoStart, wTwo, nodeAt, World.onDrag, World.setNode,
    World.recalcSegments, Option.bind_eq_bind', List.foldlM, Vec.mk.injEq]

/-- Counterexample for C10: on wSelf the node list has k = 2 entries (the
self-loop segment registered once per endpoint role), yet the removal loop
runs only 1 iteration: the shift drops one entry and the segment own
deregistration finds and removes the matching duplicate, so the loop does
not run exactly k times in this case. -/
theorem claim10_cex :
    (wSelf.nodeRemove 0).map Prod.snd = some 1 ∧
    ((wSelf.nodes 0).map fun n => n.segments.length) = some 2 := by
  constructor
  · have h1 : wSelf.nodes 0 = some { nodeAt 0 0 with segments := [5, 5] } :=
      rfl
    have h2 : ({ nodeAt 0 0 with segments := [5, 5] } : NodeData).segments =
        5 :: [5] := rfl
    rw [nodeRemove_cons h1 h2]
    have h3 : (wSelf.setNode 0
        { { nodeAt 0 0 with segments := [5, 5] } with segments := [5]
        }).segmentRemove 5 = some wSelfStep := rfl
    rw [h3]
    simp only [Option.some_bind]
    have h4 : wSelfStep.nodes 0 =
        some ((nSelfShift.removeSegment 5).removeSegment 5) := rfl
    have h5 : ((nSelfShift.removeSegment 5).removeSegment 5).segments = [] :=
      rfl
    rw [nodeRemove_nil h4 h5]
    rfl
  · rfl
